import Mathlib

/-!
Shallow embedding of the `bun-spa` handler factory (`src/index.ts`, `bunSpa`)
and proofs of the specification's testable properties against it.

Modelling conventions:
  * File contents (JS `ArrayBuffer`) and strings are both modelled as
    `List Char`; `TextDecoder.decode` is the identity on this alphabet.
  * The result of `new Bun.Glob(glob).scan(dist)` is external host
    functionality; it is modelled as an input list of scan entries (the
    relative path, detected MIME type and bytes of each matched file).
    A missing or unreadable root directory is modelled as `none`.
  * JS `Map` and JS object literals are modelled as association lists with
    insert-or-overwrite update, matching `Map.set` and object spread.
  * `Request` is modelled by the pathname of its parsed URL, which is the
    only component the handler reads (`new URL(req.url).pathname`).
  * The `Bun.BunFile` handle stored in each record is an opaque host handle
    never read by the request logic and is omitted from the record.
  * Handler construction is fallible (the source rejects when the index
    file is absent after scanning); it is embedded as `Except`.
  * The handler body is pure except for reads of the file table; the table
    is threaded through `serve` explicitly, and whether the injector
    callback ran is recorded, so that non-mutation and non-invocation are
    provable statements.
-/

namespace BunSpa

/-- Characters stand for bytes; a `Str` is a JS string or buffer payload. -/
abbrev Str := List Char

/-- Model of `new TextDecoder().decode`: the identity on the abstract
character alphabet. -/
def decodeText (s : Str) : Str := s

/-- Lookup in an association list: the first binding for the key wins
(JS `Map.get`; property read on a JS object). -/
def alistGet {α : Type} : List (Str × α) → Str → Option α
  | [], _ => none
  | p :: t, k => if p.1 = k then some p.2 else alistGet t k

/-- Insert-or-overwrite in an association list: an existing binding for the
key is replaced in place, otherwise the binding is appended
(JS `Map.set`; property assignment on a JS object). -/
def alistSet {α : Type} : List (Str × α) → Str → α → List (Str × α)
  | [], k, v => [(k, v)]
  | p :: t, k, v => if p.1 = k then (k, v) :: t else p :: alistSet t k v

/-- The value the last binding for a key carries in a list of assignments,
if any (the binding that survives building a JS object from the list). -/
def objGetLast : List (Str × Str) → Str → Option Str
  | [], _ => none
  | p :: t, k =>
    match objGetLast t k with
    | some v => some v
    | none => if p.1 = k then some p.2 else none

/-- JS object spread `\x7b ...o, ...add \x7d`: each binding of `add` is
assigned over `o` in order, later assignments overwriting earlier ones. -/
def objMerge (o add : List (Str × Str)) : List (Str × Str) :=
  add.foldl (fun acc p => alistSet acc p.1 p.2) o

/-- Index of the first occurrence of `pat` in `doc`
(JS `String.prototype.indexOf`, also the search step of
`String.prototype.replace` with a string pattern). -/
def findOcc (pat : Str) : Str → Option Nat
  | [] => if pat.isPrefixOf ([] : Str) then some 0 else none
  | c :: t =>
    if pat.isPrefixOf (c :: t) then some 0
    else (findOcc pat t).map (· + 1)

/-- JS `String.prototype.replace` with a string pattern: only the first
occurrence of `pat` is replaced, by `rep`; `doc` is returned unchanged when
`pat` does not occur. -/
def replaceFirst (doc pat rep : Str) : Str :=
  match findOcc pat doc with
  | none => doc
  | some i => doc.take i ++ rep ++ doc.drop (i + pat.length)

/-- Replacement of every non-overlapping occurrence of a non-empty `pat`,
scanning left to right (JS `String.prototype.replace` with a global
regular expression). -/
def replaceAllAux (pat rep : Str) : Str → Str
  | [] => []
  | c :: t =>
    if pat.isPrefixOf (c :: t) && !pat.isEmpty then
      rep ++ replaceAllAux pat rep (t.drop (pat.length - 1))
    else
      c :: replaceAllAux pat rep t
termination_by s => s.length
decreasing_by
  · simp only [List.length_cons, List.length_drop]
    omega
  · simp only [List.length_cons]
    omega

/-- Global replacement including the JS empty-pattern behaviour, where the
replacement is inserted at every position. -/
def replaceAllOcc (doc pat rep : Str) : Str :=
  if pat.isEmpty then rep ++ (doc.map (fun c => c :: rep)).flatten
  else replaceAllAux pat rep doc

/-- The segments of a document between the non-overlapping occurrences of
`pat` found by the left-to-right scan of global replacement; n matched
occurrences yield n + 1 segments. Used to state what global replacement
produces. -/
def segments (pat : Str) : Str → List Str
  | [] => [[]]
  | c :: t =>
    if pat.isPrefixOf (c :: t) && !pat.isEmpty then
      [] :: segments pat (t.drop (pat.length - 1))
    else
      match segments pat t with
      | [] => [[c]]
      | s :: rest => (c :: s) :: rest
termination_by s => s.length
decreasing_by
  · simp only [List.length_cons, List.length_drop]
    omega
  · simp only [List.length_cons]
    omega

/-- Concatenation of a list of segments with `rep` spliced between
consecutive segments. -/
def joinWith (rep : Str) : List Str → Str
  | [] => []
  | [s] => s
  | s :: rest => s ++ rep ++ joinWith rep rest

/-- The `indexInjectorPlaceholder` option: a string literal, or a regular
expression whose match relation is modelled as literal substring matching
(the regex engine is host functionality; what the source determines is
which occurrences are replaced, driven by the global flag). -/
inductive Placeholder
  | literal (s : Str)
  | pattern (src : Str) (global : Bool)
deriving DecidableEq

/-- `indexContent.replace(indexInjectorPlaceholder, () => injected)`:
a string pattern and a non-global regular expression replace the first
occurrence; a global regular expression replaces every non-overlapping
match. The replacer being a function, `rep` is spliced in verbatim. -/
def jsReplace (doc : Str) (pl : Placeholder) (rep : Str) : Str :=
  match pl with
  | .literal s => replaceFirst doc s rep
  | .pattern src g => if g then replaceAllOcc doc src rep else replaceFirst doc src rep

/-- The `BunSpaFile` record cached for one loaded file (the opaque
`Bun.BunFile` handle is omitted; it is never read when serving). -/
structure BunSpaFile where
  type : Str
  content : Str
  isIndex : Bool
deriving DecidableEq

/-- The in-memory file table: `Map<string, BunSpaFile>` keyed by
canonical request path. -/
abbrev FileTable := List (Str × BunSpaFile)

/-- Model of the WHATWG `Request` by the only component the handler reads:
the pathname of its parsed URL. -/
structure Request where
  pathname : Str
deriving DecidableEq

/-- Model of a WHATWG `Response`: status, header mapping, body payload. -/
structure Response where
  status : Nat
  headers : List (Str × Str)
  body : Str
deriving DecidableEq

/-- `Response.prototype.clone`: an equal response whose body stream is
independently consumable (stream state is host behaviour). -/
def Response.clone (r : Response) : Response :=
  { status := r.status, headers := r.headers, body := r.body }

/-- The `BunSpaCallbackOptions` context passed to the injector and headers
callbacks: the parsed URL (modelled by its pathname), the request, and the
matched file record. -/
structure CallbackOptions where
  pathname : Str
  req : Request
  file : BunSpaFile

/-- The `BunSpaOptions` configuration. `dist` and `glob` parameterize the
external scan and appear as the scan input instead; callbacks are total
functions (the sync-or-async return is settled by awaiting). -/
structure Options where
  index : Str
  placeholder : Placeholder
  indexInjector : Option (CallbackOptions → Str)
  headers : Option (CallbackOptions → List (Str × Str))
  disabled : Bool
  disabledResponse : Response

/-- The defaulted fields of the destructuring in `bunSpa`'s signature. -/
def defaultOptions : Options :=
  { index := ("index.html").toList
  , placeholder := .literal (("<!-- bun-spa-placeholder -->").toList)
  , indexInjector := none
  , headers := none
  , disabled := false
  , disabledResponse :=
      { status := 501, headers := [], body := ("bun-spa disabled").toList } }

/-- One entry produced by the directory scan: relative path, detected MIME
type, and file bytes. -/
structure ScanEntry where
  entry : Str
  type : Str
  content : Str
deriving DecidableEq

/-- The record built for one scan entry:
`\x7b type, content, isIndex: entry === index \x7d`. -/
def mkRecord (ix : Str) (e : ScanEntry) : BunSpaFile :=
  { type := e.type, content := e.content, isIndex := decide (e.entry = ix) }

/-- The scan loop: `files.set("/" + entry, \x7b ... \x7d)` for each entry,
in scan order. -/
def buildFiles (scan : List ScanEntry) (ix : Str) : FileTable :=
  scan.foldl (fun m e => alistSet m ('/' :: e.entry) (mkRecord ix e)) []

/-- Construction failures: unreadable root, or no record at the index key
after scanning (in the source the latter surfaces as the thrown error from
reading `.content` off the asserted-non-null missing index record). -/
inductive ConstructError
  | loadError
  | missingIndexError
deriving DecidableEq

/-- Result of one handler invocation: the response, whether the injector
callback was invoked, and the file table as left behind by the invocation
(threaded explicitly so that non-mutation is a provable statement). -/
structure HandleResult where
  response : Response
  injectorCalled : Bool
  files : FileTable
deriving DecidableEq

/-- The header key written by the handler. -/
def contentTypeKey : Str := ("Content-Type").toList

/-- The injector's returned string for a context (empty when no injector is
configured; the handler only reads it when one is). -/
def injectorOutput (opts : Options) (ctx : CallbackOptions) : Str :=
  match opts.indexInjector with
  | some f => f ctx
  | none => []

/-- The headers callback's returned mapping for a context (empty when no
callback is configured: spreading `undefined` adds nothing). -/
def headersOutput (opts : Options) (ctx : CallbackOptions) : List (Str × Str) :=
  match opts.headers with
  | some f => f ctx
  | none => []

/-- The request handler returned by `bunSpa` (lines 58-75 of the source):
look up the exact path, fall back to the index record, inject into the
decoded index text when the matched record is the index and an injector is
configured, and answer with the default `Content-Type` merged under the
headers callback's mapping. -/
def serve (opts : Options) (files : FileTable) (indexFile : BunSpaFile)
    (indexContent : Str) (req : Request) : HandleResult :=
  let file := (alistGet files req.pathname).getD indexFile
  let ctx : CallbackOptions := { pathname := req.pathname, req := req, file := file }
  let produced :=
    if !file.isIndex || opts.indexInjector.isNone then (file.content, false)
    else (jsReplace indexContent opts.placeholder (injectorOutput opts ctx), true)
  { response :=
      { status := 200
      , headers := objMerge [(contentTypeKey, file.type)] (headersOutput opts ctx)
      , body := produced.1 }
  , injectorCalled := produced.2
  , files := files }

/-- A constructed handler: either the disabled short-circuit closure, or
the serving closure with its captured table, index record and decoded
index text. -/
inductive Handler
  | disabled (resp : Response)
  | serving (opts : Options) (files : FileTable) (indexFile : BunSpaFile)
      (indexContent : Str)

/-- Invoke a constructed handler on a request. The disabled closure
returns a clone of its captured response and touches no table. -/
def Handler.run : Handler → Request → HandleResult
  | .disabled r, _ =>
    { response := r.clone, injectorCalled := false, files := [] }
  | .serving opts files ixf ixc, req => serve opts files ixf ixc req

/-- `bunSpa`: return the disabled closure before any scan when `disabled`
is set; otherwise scan (a missing root fails the load), build the table,
fetch the index record (failing construction when absent) and close over
it together with its decoded text. -/
def bunSpa (opts : Options) (disk : Option (List ScanEntry)) :
    Except ConstructError Handler :=
  if opts.disabled then .ok (.disabled opts.disabledResponse)
  else
    match disk with
    | none => .error .loadError
    | some scan =>
      let files := buildFiles scan opts.index
      match alistGet files ('/' :: opts.index) with
      | none => .error .missingIndexError
      | some indexFile =>
        .ok (.serving opts files indexFile (decodeText indexFile.content))

/-- Construct a handler and run it on one request; `none` when
construction failed. -/
def runConstructed (opts : Options) (disk : Option (List ScanEntry))
    (req : Request) : Option HandleResult :=
  match bunSpa opts disk with
  | .ok h => some (h.run req)
  | .error _ => none

/-- Body of the response of a construction-then-invocation outcome. -/
def bodyOf (r : Option HandleResult) : Option Str :=
  r.map (fun x => x.response.body)

/-- A header of the response of a construction-then-invocation outcome. -/
def headerOf (r : Option HandleResult) (k : Str) : Option Str :=
  r.bind (fun x => alistGet x.response.headers k)

/-- The content type of the response of a construction-then-invocation
outcome. -/
def ctypeOf (r : Option HandleResult) : Option Str :=
  headerOf r contentTypeKey

/-- Whether the injector ran during a construction-then-invocation
outcome. -/
def injCalledOf (r : Option HandleResult) : Option Bool :=
  r.map (fun x => x.injectorCalled)

/-- Example scan entry: an index document holding two occurrences of the
placeholder letter X. -/
def exIndexEntry : ScanEntry :=
  { entry := ("index.html").toList
  , type := ("text/html").toList
  , content := ("uXvXw").toList }

/-- Example scan entry: a static non-index asset. -/
def exAppEntry : ScanEntry :=
  { entry := ("app.js").toList
  , type := ("text/javascript").toList
  , content := ("console").toList }

/-- Example scan: the index document plus one static asset. -/
def exScan : List ScanEntry := [exIndexEntry, exAppEntry]

/-- Example request missing from the table (fallback route). -/
def exReqMiss : Request := { pathname := ("/nope").toList }

/-- Example request hitting the static asset exactly. -/
def exReqApp : Request := { pathname := ("/app.js").toList }

/-- The record the loader builds for the static asset. -/
def exAppRecord : BunSpaFile := mkRecord (("index.html").toList) exAppEntry

/-- The record the loader builds for the index document. -/
def exIndexRecord : BunSpaFile := mkRecord (("index.html").toList) exIndexEntry

/-- Options with a single-letter literal placeholder and an injector that
returns Y. -/
def c1Opts : Options :=
  { defaultOptions with
      placeholder := .literal (("X").toList)
    , indexInjector := some (fun _ => ("Y").toList) }

/-- Options with a non-global pattern placeholder matching X and an
injector that returns Y. -/
def c1pOpts : Options :=
  { defaultOptions with
      placeholder := .pattern (("X").toList) false
    , indexInjector := some (fun _ => ("Y").toList) }

/-- Options with a global pattern placeholder matching X and an injector
that returns Y. -/
def c1gOpts : Options :=
  { defaultOptions with
      placeholder := .pattern (("X").toList) true
    , indexInjector := some (fun _ => ("Y").toList) }

/-- Options with the literal placeholder X and an injector returning a
string made of replacement-pattern metacharacters. -/
def c10Opts : Options :=
  { defaultOptions with
      placeholder := .literal (("X").toList)
    , indexInjector := some (fun _ => ("$&").toList) }

/-- Options with disabled mode switched on. -/
def c6Opts : Options := { defaultOptions with disabled := true }

/-- Options with a headers callback adding a Cache-Control header. -/
def c7Opts : Options :=
  { defaultOptions with
      headers := some (fun _ => [(("Cache-Control").toList, ("no-store").toList)]) }

end BunSpa

namespace BunSpa

theorem alistGet_alistSet {α : Type} (m : List (Str × α)) (k : Str) (v : α)
    (k' : Str) :
    alistGet (alistSet m k v) k' = if k' = k then some v else alistGet m k' := by
  induction m with
  | nil =>
    by_cases h : k' = k
    · subst h; simp [alistSet, alistGet]
    · simp [alistSet, alistGet, h, Ne.symm h]
  | cons p t ih =>
    have hset : alistSet (p :: t) k v =
        if p.1 = k then (k, v) :: t else p :: alistSet t k v := rfl
    rw [hset]
    by_cases hp : p.1 = k
    · rw [if_pos hp]
      have h1 : alistGet ((k, v) :: t) k' =
          if k = k' then some v else alistGet t k' := rfl
      have h2 : alistGet (p :: t) k' =
          if p.1 = k' then some p.2 else alistGet t k' := rfl
      rw [h1, h2]
      by_cases h : k' = k
      · simp only [if_pos h.symm, if_pos h]
      · have hpk : ¬ p.1 = k' := fun hh => h ((hp.symm.trans hh).symm)
        simp only [if_neg (fun hh : k = k' => h hh.symm), if_neg h, if_neg hpk]
    · rw [if_neg hp]
      have h1 : alistGet (p :: alistSet t k v) k' =
          if p.1 = k' then some p.2 else alistGet (alistSet t k v) k' := rfl
      have h2 : alistGet (p :: t) k' =
          if p.1 = k' then some p.2 else alistGet t k' := rfl
      rw [h1, ih, h2]
      by_cases hpk : p.1 = k'
      · have hk : ¬ k' = k := fun hh => hp (hpk.trans hh)
        simp only [if_pos hpk, if_neg hk]
      · simp only [if_neg hpk]

theorem alistGet_objMerge_none (add : List (Str × Str)) :
    ∀ (o : List (Str × Str)) (k : Str), objGetLast add k = none →
      alistGet (objMerge o add) k = alistGet o k := by
  induction add with
  | nil => intro o k _; rfl
  | cons p t ih =>
    intro o k h
    simp only [objGetLast] at h
    cases ht : objGetLast t k with
    | some v => rw [ht] at h; exact absurd h (by simp)
    | none =>
      rw [ht] at h
      have hp : p.1 ≠ k := by
        intro hh; rw [if_pos hh] at h; exact Option.noConfusion h
      have : objMerge o (p :: t) = objMerge (alistSet o p.1 p.2) t := rfl
      rw [this, ih _ _ ht, alistGet_alistSet]
      rw [if_neg (fun hh => hp hh.symm)]

theorem alistGet_objMerge_some (add : List (Str × Str)) :
    ∀ (o : List (Str × Str)) (k : Str) (v : Str), objGetLast add k = some v →
      alistGet (objMerge o add) k = some v := by
  induction add with
  | nil => intro o k v h; exact absurd h (by simp [objGetLast])
  | cons p t ih =>
    intro o k v h
    simp only [objGetLast] at h
    cases ht : objGetLast t k with
    | some w =>
      rw [ht] at h
      have : objMerge o (p :: t) = objMerge (alistSet o p.1 p.2) t := rfl
      rw [this, ih _ _ _ (ht.trans (congrArg some (Option.some.inj h)))]
    | none =>
      rw [ht] at h
      have hp : p.1 = k := by
        by_cases hh : p.1 = k
        · exact hh
        · rw [if_neg hh] at h; exact absurd h (by simp)
      rw [if_pos hp] at h
      have : objMerge o (p :: t) = objMerge (alistSet o p.1 p.2) t := rfl
      rw [this, alistGet_objMerge_none t _ _ ht, alistGet_alistSet,
        if_pos hp.symm, Option.some.inj h]

theorem buildFilesAux_get_none (ix : Str) (scan : List ScanEntry) :
    ∀ (m : FileTable) (k : Str),
      alistGet (scan.foldl
          (fun m e => alistSet m ('/' :: e.entry) (mkRecord ix e)) m) k = none ↔
        alistGet m k = none ∧ ∀ e ∈ scan, ('/' :: e.entry) ≠ k := by
  induction scan with
  | nil => intro m k; simp
  | cons e t ih =>
    intro m k
    simp only [List.foldl_cons]
    rw [ih]
    constructor
    · rintro ⟨h1, h2⟩
      rw [alistGet_alistSet] at h1
      by_cases hk : k = '/' :: e.entry
      · rw [if_pos hk] at h1; exact absurd h1 (by simp)
      · rw [if_neg hk] at h1
        refine ⟨h1, ?_⟩
        intro e' he'
        rcases List.mem_cons.mp he' with rfl | he'
        · exact fun hh => hk hh.symm
        · exact h2 e' he'
    · rintro ⟨h1, h2⟩
      refine ⟨?_, fun e' he' => h2 e' (List.mem_cons_of_mem _ he')⟩
      rw [alistGet_alistSet]
      have hne : ('/' :: e.entry) ≠ k := h2 e (List.mem_cons_self _ _)
      rw [if_neg (fun hh => hne hh.symm)]
      exact h1

theorem buildFiles_get_none (scan : List ScanEntry) (ix k : Str) :
    alistGet (buildFiles scan ix) k = none ↔
      ∀ e ∈ scan, ('/' :: e.entry) ≠ k := by
  rw [buildFiles, buildFilesAux_get_none]
  simp [alistGet]

theorem buildFilesAux_get_some (ix : Str) (scan : List ScanEntry) :
    ∀ (m : FileTable) (k : Str) (f : BunSpaFile),
      alistGet (scan.foldl
          (fun m e => alistSet m ('/' :: e.entry) (mkRecord ix e)) m) k = some f →
      alistGet m k = some f ∨
        ∃ e, e ∈ scan ∧ k = '/' :: e.entry ∧ f = mkRecord ix e := by
  induction scan with
  | nil => intro m k f h; exact Or.inl h
  | cons e t ih =>
    intro m k f h
    simp only [List.foldl_cons] at h
    rcases ih _ _ _ h with h' | ⟨e', he', hk, hf⟩
    · rw [alistGet_alistSet] at h'
      by_cases hk : k = '/' :: e.entry
      · rw [if_pos hk] at h'
        exact Or.inr ⟨e, List.mem_cons_self _ _, hk, (Option.some.inj h').symm⟩
      · rw [if_neg hk] at h'
        exact Or.inl h'
    · exact Or.inr ⟨e', List.mem_cons_of_mem _ he', hk, hf⟩

theorem buildFiles_get_some (scan : List ScanEntry) (ix k : Str)
    (f : BunSpaFile) (h : alistGet (buildFiles scan ix) k = some f) :
    ∃ e, e ∈ scan ∧ k = '/' :: e.entry ∧ f = mkRecord ix e := by
  rcases buildFilesAux_get_some ix scan [] k f h with h' | h'
  · exact absurd h' (by simp [alistGet])
  · exact h'

theorem index_record_isIndex (scan : List ScanEntry) (ix : Str)
    (f : BunSpaFile) (h : alistGet (buildFiles scan ix) ('/' :: ix) = some f) :
    f.isIndex = true := by
  rcases buildFiles_get_some scan ix _ f h with ⟨e, _, hk, hf⟩
  have he : ix = e.entry := by
    injection hk
  rw [hf, mkRecord]
  simp [← he]

theorem replaceFirst_split (a pl b rep : Str)
    (h : findOcc pl (a ++ pl ++ b) = some a.length) :
    replaceFirst (a ++ pl ++ b) pl rep = a ++ rep ++ b := by
  rw [replaceFirst, h]
  show (a ++ pl ++ b).take a.length ++ rep ++
      (a ++ pl ++ b).drop (a.length + pl.length) = a ++ rep ++ b
  have ht : (a ++ pl ++ b).take a.length = a := by
    rw [List.append_assoc]
    exact List.take_left a (pl ++ b)
  have hd : (a ++ pl ++ b).drop (a.length + pl.length) = b := by
    have hlen : a.length + pl.length = (a ++ pl).length :=
      (List.length_append _ _).symm
    rw [hlen]
    exact List.drop_left (a ++ pl) b
  rw [ht, hd]

theorem segments_ne_nil (pat : Str) : ∀ doc, segments pat doc ≠ [] := by
  intro doc
  induction doc using segments.induct pat with
  | case1 => simp [segments]
  | case2 c t h ih => simp [segments, h]
  | case3 c t h hs ih => simp [segments, h, hs]
  | case4 c t h s rest hs ih => simp [segments, h, hs]

theorem joinWith_nil_cons (rep : Str) (S : List Str) (h : S ≠ []) :
    joinWith rep ([] :: S) = rep ++ joinWith rep S := by
  cases S with
  | nil => exact absurd rfl h
  | cons s rest => cases rest <;> simp [joinWith]

theorem joinWith_cons_cons (rep : Str) (c : Char) (s : Str)
    (rest : List Str) :
    joinWith rep ((c :: s) :: rest) = c :: joinWith rep (s :: rest) := by
  cases rest <;> simp [joinWith]

theorem replaceAllAux_eq_joinWith (pat rep : Str) :
    ∀ doc, replaceAllAux pat rep doc = joinWith rep (segments pat doc) := by
  intro doc
  induction doc using segments.induct pat with
  | case1 => simp [replaceAllAux, segments, joinWith]
  | case2 c t h ih =>
    rw [replaceAllAux, segments, if_pos h, if_pos h, ih,
      joinWith_nil_cons _ _ (segments_ne_nil pat _)]
  | case3 c t h hs ih =>
    exact absurd hs (segments_ne_nil pat t)
  | case4 c t h s rest hs ih =>
    rw [replaceAllAux, segments, if_neg h, if_neg h, hs, ih, hs,
      joinWith_cons_cons]

theorem segments_head_prefix (pat : Str) :
    ∀ doc s rest, segments pat doc = s :: rest → s <+: doc := by
  intro doc
  induction doc using segments.induct pat with
  | case1 =>
    intro s rest h
    rw [segments] at h
    injection h with h1 h2
    rw [← h1]
  | case2 c t h ih =>
    intro s rest hh
    rw [segments, if_pos h] at hh
    injection hh with h1 h2
    rw [← h1]
    exact List.nil_prefix
  | case3 c t h hs ih => exact absurd hs (segments_ne_nil pat t)
  | case4 c t h s0 r hsg ih =>
    intro s rest hh
    rw [segments, if_neg h, hsg] at hh
    injection hh with h1 h2
    rw [← h1]
    exact List.cons_prefix_cons.mpr ⟨rfl, ih s0 r hsg⟩

theorem findOcc_nil_of_ne (pat : Str) (hp : pat ≠ []) :
    findOcc pat [] = none := by
  cases pat with
  | nil => exact absurd rfl hp
  | cons q qs => rfl

theorem segments_findOcc_none (pat : Str) (hp : pat ≠ []) :
    ∀ doc, ∀ s ∈ segments pat doc, findOcc pat s = none := by
  have hne : pat.isEmpty = false := by
    cases pat with
    | nil => exact absurd rfl hp
    | cons q qs => rfl
  intro doc
  induction doc using segments.induct pat with
  | case1 =>
    intro s hs
    rw [segments] at hs
    rcases List.mem_singleton.mp hs with rfl
    exact findOcc_nil_of_ne pat hp
  | case2 c t h ih =>
    intro s hs
    rw [segments, if_pos h] at hs
    rcases List.mem_cons.mp hs with rfl | hs'
    · exact findOcc_nil_of_ne pat hp
    · exact ih s hs'
  | case3 c t h hs ih => exact absurd hs (segments_ne_nil pat t)
  | case4 c t h s0 rest hsg ih =>
    intro s hs
    rw [segments, if_neg h, hsg] at hs
    have hnp : pat.isPrefixOf (c :: t) = false := by
      cases hpp : pat.isPrefixOf (c :: t)
      · rfl
      · exact absurd (by rw [hpp, hne]; rfl) h
    rcases List.mem_cons.mp hs with rfl | hs'
    · have h0 : findOcc pat s0 = none :=
        ih s0 (by rw [hsg]; exact List.mem_cons_self _ _)
      have hpre : pat.isPrefixOf (c :: s0) = false := by
        cases hpp : pat.isPrefixOf (c :: s0)
        · rfl
        · exfalso
          have h1 : pat <+: (c :: s0) := List.isPrefixOf_iff_prefix.mp hpp
          have h2 : s0 <+: t := segments_head_prefix pat t s0 rest hsg
          have h3 : (c :: s0) <+: (c :: t) :=
            List.cons_prefix_cons.mpr ⟨rfl, h2⟩
          have h4 : pat <+: (c :: t) := h1.trans h3
          rw [List.isPrefixOf_iff_prefix.mpr h4] at hnp
          exact Bool.noConfusion hnp
      rw [findOcc]
      simp [hpre, h0]
    · exact ih s (by rw [hsg]; exact List.mem_cons_of_mem _ hs')

theorem bunSpa_serving (opts : Options) (scan : List ScanEntry)
    (ixf : BunSpaFile) (hdis : opts.disabled = false)
    (hix : alistGet (buildFiles scan opts.index) ('/' :: opts.index) = some ixf) :
    bunSpa opts (some scan) =
      .ok (.serving opts (buildFiles scan opts.index) ixf
        (decodeText ixf.content)) := by
  simp [bunSpa, hdis, hix]

theorem runConstructed_serving (opts : Options) (scan : List ScanEntry)
    (ixf : BunSpaFile) (req : Request) (hdis : opts.disabled = false)
    (hix : alistGet (buildFiles scan opts.index) ('/' :: opts.index) = some ixf) :
    runConstructed opts (some scan) req =
      some (serve opts (buildFiles scan opts.index) ixf
        (decodeText ixf.content) req) := by
  unfold runConstructed
  rw [bunSpa_serving opts scan ixf hdis hix]
  rfl

theorem record_isIndex_iff (scan : List ScanEntry) (ix k : Str)
    (f : BunSpaFile) (h : alistGet (buildFiles scan ix) k = some f) :
    f.isIndex = true ↔ k = '/' :: ix := by
  obtain ⟨e, _, hk, hf⟩ := buildFiles_get_some scan ix k f h
  rw [hf]
  show decide (e.entry = ix) = true ↔ k = '/' :: ix
  simp only [decide_eq_true_eq]
  constructor
  · intro hh
    rw [hk, hh]
  · intro hh
    rw [hk] at hh
    injection hh

/-- C1: counterexample. The index document uXvXw holds two occurrences of
the configured placeholder X and the injector returns Y, yet the fallback
response body is uYvXw for a literal placeholder and equally for a pattern
placeholder without the global flag: one occurrence of the placeholder
remains in the body, which is not the fully substituted text uYvYw the
claim requires for N = 2 (and, for a pattern, not the text with all
non-overlapping matches replaced). -/
theorem c1_counterexample :
    (bodyOf (runConstructed c1Opts (some exScan) exReqMiss) =
        some (("uYvXw").toList) ∧
      bodyOf (runConstructed c1Opts (some exScan) exReqMiss) ≠
        some (("uYvYw").toList) ∧
      (("uYvXw").toList).count 'X' = 1) ∧
    (bodyOf (runConstructed c1pOpts (some exScan) exReqMiss) =
        some (("uYvXw").toList) ∧
      bodyOf (runConstructed c1pOpts (some exScan) exReqMiss) ≠
        some (("uYvYw").toList)) := by
  decide

/-- C1 (amended): for an index/fallback request (one whose matched record
is the index record, whether by direct hit or by lookup miss) with an
index-injector configured: a literal placeholder, and a pattern
placeholder without the global flag, replace exactly the first occurrence
(first match) of the placeholder with the injector's returned string, the
rest of the document surviving verbatim; a non-empty pattern placeholder
with the global flag replaces every non-overlapping match: the body is the
sequence of match-free segments of the index text joined by the injector's
returned string. -/
theorem c1_substitution_semantics (opts : Options) (scan : List ScanEntry)
    (req : Request) (ixf : BunSpaFile) (inj : CallbackOptions → Str)
    (hdis : opts.disabled = false)
    (hinj : opts.indexInjector = some inj)
    (hix : alistGet (buildFiles scan opts.index) ('/' :: opts.index) = some ixf)
    (hmatch : (alistGet (buildFiles scan opts.index) req.pathname).getD ixf
      = ixf) :
    (∀ pl a b,
      (opts.placeholder = .literal pl ∨ opts.placeholder = .pattern pl false) →
      decodeText ixf.content = a ++ pl ++ b →
      findOcc pl (a ++ pl ++ b) = some a.length →
      bodyOf (runConstructed opts (some scan) req) =
        some (a ++ inj { pathname := req.pathname, req := req, file := ixf }
          ++ b)) ∧
    (∀ pl, opts.placeholder = .pattern pl true → pl ≠ [] →
      bodyOf (runConstructed opts (some scan) req) =
        some (joinWith
          (inj { pathname := req.pathname, req := req, file := ixf })
          (segments pl (decodeText ixf.content))) ∧
      ∀ s ∈ segments pl (decodeText ixf.content), findOcc pl s = none) := by
  rw [runConstructed_serving opts scan ixf req hdis hix]
  have hidx : ixf.isIndex = true := index_record_isIndex scan opts.index ixf hix
  have hb : bodyOf (some (serve opts (buildFiles scan opts.index) ixf
      (decodeText ixf.content) req)) =
      some (jsReplace (decodeText ixf.content) opts.placeholder
        (inj { pathname := req.pathname, req := req, file := ixf })) := by
    simp only [bodyOf, Option.map_some', serve, hmatch, hidx, hinj,
      injectorOutput, Option.isNone_some, Bool.not_true, Bool.false_or,
      Bool.false_eq_true, ite_false]
  refine ⟨?_, ?_⟩
  · rintro pl a b (hpl | hpl) hcontent hfirst
    · rw [hb, hpl, hcontent]
      simp only [jsReplace]
      rw [replaceFirst_split a pl b _ hfirst]
    · rw [hb, hpl, hcontent]
      simp only [jsReplace, Bool.false_eq_true, ite_false]
      rw [replaceFirst_split a pl b _ hfirst]
  · intro pl hpl hp
    refine ⟨?_, segments_findOcc_none pl hp (decodeText ixf.content)⟩
    rw [hb, hpl]
    have hne : pl.isEmpty = false := by
      cases pl with
      | nil => exact absurd rfl hp
      | cons q qs => rfl
    simp only [jsReplace, ite_true]
    rw [replaceAllOcc, hne]
    rw [if_neg Bool.false_ne_true, replaceAllAux_eq_joinWith]

/-- C1 witness for the amended statement, applying it at a
literal-placeholder configuration (first occurrence only: uXvXw becomes
uYvXw) and at a global-pattern configuration (all matches: the match-free
segments of uXvXw joined by Y give uYvYw). -/
theorem c1_substitution_semantics_witness :
    c1Opts.disabled = false ∧
    c1Opts.indexInjector = some (fun _ => ("Y").toList) ∧
    alistGet (buildFiles exScan c1Opts.index) ('/' :: c1Opts.index) =
      some exIndexRecord ∧
    (alistGet (buildFiles exScan c1Opts.index) exReqMiss.pathname).getD
      exIndexRecord = exIndexRecord ∧
    c1Opts.placeholder = .literal (("X").toList) ∧
    decodeText exIndexRecord.content =
      ("u").toList ++ ("X").toList ++ ("vXw").toList ∧
    findOcc (("X").toList)
      (("u").toList ++ ("X").toList ++ ("vXw").toList) =
        some (("u").toList).length ∧
    bodyOf (runConstructed c1Opts (some exScan) exReqMiss) =
      some (("u").toList ++ ("Y").toList ++ ("vXw").toList) ∧
    c1gOpts.placeholder = .pattern (("X").toList) true ∧
    bodyOf (runConstructed c1gOpts (some exScan) exReqMiss) =
      some (("uYvYw").toList) :=
  ⟨by decide, rfl, by decide, by decide, by decide, by decide, by decide,
    (c1_substitution_semantics c1Opts exScan exReqMiss exIndexRecord
        (fun _ => ("Y").toList) (by decide) rfl (by decide) (by decide)).1
      (("X").toList) (("u").toList) (("vXw").toList) (Or.inl (by decide))
      (by decide) (by decide),
    by decide,
    ((c1_substitution_semantics c1gOpts exScan exReqMiss exIndexRecord
          (fun _ => ("Y").toList) (by decide) rfl (by decide) (by decide)).2
        (("X").toList) (by decide) (by decide)).1.trans
      (congrArg some (by
        simp [decodeText, exIndexRecord, mkRecord, exIndexEntry, segments,
          joinWith]))⟩

/-- C2: with disabled = false, when no scanned entry's relative path equals
the configured index filename, construction fails with the missing-index
error and no handler is returned. -/
theorem c2_missing_index (opts : Options) (scan : List ScanEntry)
    (hdis : opts.disabled = false)
    (hmiss : ∀ e ∈ scan, e.entry ≠ opts.index) :
    bunSpa opts (some scan) = .error .missingIndexError ∧
    ∀ hd, bunSpa opts (some scan) ≠ .ok hd := by
  have hnone : alistGet (buildFiles scan opts.index) ('/' :: opts.index) = none := by
    rw [buildFiles_get_none]
    intro e he hh
    injection hh with h1 h2
    exact hmiss e he h2
  have h1 : bunSpa opts (some scan) = .error .missingIndexError := by
    simp [bunSpa, hdis, hnone]
  exact ⟨h1, fun hd hok => by rw [h1] at hok; exact Except.noConfusion hok⟩

/-- C2 witness: a scan holding only the static asset, with the default
index filename. -/
theorem c2_missing_index_witness :
    defaultOptions.disabled = false ∧
    (∀ e ∈ [exAppEntry], e.entry ≠ defaultOptions.index) ∧
    bunSpa defaultOptions (some [exAppEntry]) = .error .missingIndexError :=
  ⟨by decide, by decide,
    (c2_missing_index defaultOptions [exAppEntry] (by decide) (by decide)).1⟩

/-- C6: with disabled = true, construction succeeds for every root
(including a missing one, so the directory is never scanned and no load
error occurs), every request gets a clone of the configured disabled
response, and the default disabled response is status 501 with the fixed
plain-text body. -/
theorem c6_disabled_short_circuit (opts : Options)
    (disk : Option (List ScanEntry)) (req : Request)
    (h : opts.disabled = true) :
    bunSpa opts disk = .ok (.disabled opts.disabledResponse) ∧
    runConstructed opts disk req =
      some { response := opts.disabledResponse.clone
           , injectorCalled := false
           , files := [] } ∧
    defaultOptions.disabledResponse =
      { status := 501, headers := [], body := ("bun-spa disabled").toList } := by
  have h1 : bunSpa opts disk = .ok (.disabled opts.disabledResponse) := by
    simp [bunSpa, h]
  refine ⟨h1, ?_, rfl⟩
  unfold runConstructed
  rw [h1]
  rfl

/-- C6 witness: disabled options over a nonexistent root. -/
theorem c6_disabled_short_circuit_witness :
    c6Opts.disabled = true ∧
    bunSpa c6Opts none = .ok (.disabled c6Opts.disabledResponse) ∧
    runConstructed c6Opts none exReqMiss =
      some { response := c6Opts.disabledResponse.clone
           , injectorCalled := false
           , files := [] } ∧
    defaultOptions.disabledResponse =
      { status := 501, headers := [], body := ("bun-spa disabled").toList } :=
  ⟨by decide, c6_disabled_short_circuit c6Opts none exReqMiss (by decide)⟩

/-- C8: every key of the built table is a slash-prefixed scanned relative
path; a record is marked as index exactly when its key is the
slash-prefixed index filename; and at most one record is marked as
index. -/
theorem c8_table_invariants (scan : List ScanEntry) (ix k : Str)
    (f : BunSpaFile) (h : alistGet (buildFiles scan ix) k = some f) :
    (∃ e, e ∈ scan ∧ k = '/' :: e.entry) ∧
    (f.isIndex = true ↔ k = '/' :: ix) ∧
    (∀ k' f', alistGet (buildFiles scan ix) k' = some f' →
      f.isIndex = true → f'.isIndex = true → k' = k) := by
  obtain ⟨e, he, hk, _⟩ := buildFiles_get_some scan ix k f h
  refine ⟨⟨e, he, hk⟩, record_isIndex_iff scan ix k f h, ?_⟩
  intro k' f' h' hfi hfi'
  rw [(record_isIndex_iff scan ix k' f' h').mp hfi',
    (record_isIndex_iff scan ix k f h).mp hfi]

/-- C8 witness: the invariants at the example table, looking at the index
record's key. -/
theorem c8_table_invariants_witness :
    alistGet (buildFiles exScan (("index.html").toList))
      (("/index.html").toList) = some exIndexRecord ∧
    ((∃ e, e ∈ exScan ∧ ("/index.html").toList = '/' :: e.entry) ∧
     (exIndexRecord.isIndex = true ↔
       ("/index.html").toList = '/' :: ("index.html").toList) ∧
     (∀ k' f', alistGet (buildFiles exScan (("index.html").toList)) k' = some f' →
       exIndexRecord.isIndex = true → f'.isIndex = true →
         k' = ("/index.html").toList)) :=
  ⟨by decide,
    c8_table_invariants exScan (("index.html").toList)
      (("/index.html").toList) exIndexRecord (by decide)⟩

/-- C3: a request whose path is not a table key is answered from the index
record: the default content type is the index record's type, and the body
is the raw index bytes when no injector is configured or the injected index
text otherwise. -/
theorem c3_fallback_serves_index (opts : Options) (scan : List ScanEntry)
    (req : Request) (ixf : BunSpaFile)
    (hdis : opts.disabled = false)
    (hix : alistGet (buildFiles scan opts.index) ('/' :: opts.index) = some ixf)
    (hmiss : alistGet (buildFiles scan opts.index) req.pathname = none)
    (hct : objGetLast (headersOutput opts
        { pathname := req.pathname, req := req, file := ixf })
      contentTypeKey = none) :
    ctypeOf (runConstructed opts (some scan) req) = some ixf.type ∧
    (opts.indexInjector = none →
      bodyOf (runConstructed opts (some scan) req) = some ixf.content) ∧
    (opts.indexInjector.isSome = true →
      bodyOf (runConstructed opts (some scan) req) =
        some (jsReplace (decodeText ixf.content) opts.placeholder
          (injectorOutput opts
            { pathname := req.pathname, req := req, file := ixf }))) := by
  rw [runConstructed_serving opts scan ixf req hdis hix]
  have hidx : ixf.isIndex = true := index_record_isIndex scan opts.index ixf hix
  refine ⟨?_, ?_, ?_⟩
  · simp only [ctypeOf, headerOf, serve, hmiss, Option.getD_none,
      Option.some_bind]
    rw [alistGet_objMerge_none _ _ _ hct]
    simp [alistGet]
  · intro hnone
    simp [bodyOf, serve, hmiss, hnone]
  · intro hsome
    obtain ⟨inj, hinj⟩ := Option.isSome_iff_exists.mp hsome
    simp [bodyOf, serve, hmiss, hidx, hinj, injectorOutput]

/-- C3 witness: the default options over the example scan, at a fallback
path. -/
theorem c3_fallback_serves_index_witness :
    defaultOptions.disabled = false ∧
    alistGet (buildFiles exScan defaultOptions.index)
      ('/' :: defaultOptions.index) = some exIndexRecord ∧
    alistGet (buildFiles exScan defaultOptions.index) exReqMiss.pathname =
      none ∧
    objGetLast (headersOutput defaultOptions
      { pathname := exReqMiss.pathname, req := exReqMiss,
        file := exIndexRecord }) contentTypeKey = none ∧
    (ctypeOf (runConstructed defaultOptions (some exScan) exReqMiss) =
        some exIndexRecord.type ∧
      (defaultOptions.indexInjector = none →
        bodyOf (runConstructed defaultOptions (some exScan) exReqMiss) =
          some exIndexRecord.content) ∧
      (defaultOptions.indexInjector.isSome = true →
        bodyOf (runConstructed defaultOptions (some exScan) exReqMiss) =
          some (jsReplace (decodeText exIndexRecord.content)
            defaultOptions.placeholder
            (injectorOutput defaultOptions
              { pathname := exReqMiss.pathname, req := exReqMiss,
                file := exIndexRecord })))) :=
  ⟨by decide, by decide, by decide, by decide,
    c3_fallback_serves_index defaultOptions exScan exReqMiss exIndexRecord
      (by decide) (by decide) (by decide) (by decide)⟩

/-- C4: a request hitting a non-index table key exactly is answered with
that record's cached bytes, and with its detected type as content type
when the headers callback does not override it. -/
theorem c4_static_exactness (opts : Options) (scan : List ScanEntry)
    (req : Request) (ixf f : BunSpaFile)
    (hdis : opts.disabled = false)
    (hix : alistGet (buildFiles scan opts.index) ('/' :: opts.index) = some ixf)
    (hhit : alistGet (buildFiles scan opts.index) req.pathname = some f)
    (hfi : f.isIndex = false)
    (hct : objGetLast (headersOutput opts
        { pathname := req.pathname, req := req, file := f })
      contentTypeKey = none) :
    bodyOf (runConstructed opts (some scan) req) = some f.content ∧
    ctypeOf (runConstructed opts (some scan) req) = some f.type := by
  rw [runConstructed_serving opts scan ixf req hdis hix]
  refine ⟨?_, ?_⟩
  · simp [bodyOf, serve, hhit, hfi]
  · simp only [ctypeOf, headerOf, serve, hhit, Option.getD_some,
      Option.some_bind]
    rw [alistGet_objMerge_none _ _ _ hct]
    simp [alistGet]

/-- C4 witness: the static asset record at its exact key. -/
theorem c4_static_exactness_witness :
    defaultOptions.disabled = false ∧
    alistGet (buildFiles exScan defaultOptions.index)
      ('/' :: defaultOptions.index) = some exIndexRecord ∧
    alistGet (buildFiles exScan defaultOptions.index) exReqApp.pathname =
      some exAppRecord ∧
    exAppRecord.isIndex = false ∧
    objGetLast (headersOutput defaultOptions
      { pathname := exReqApp.pathname, req := exReqApp,
        file := exAppRecord }) contentTypeKey = none ∧
    (bodyOf (runConstructed defaultOptions (some exScan) exReqApp) =
        some exAppRecord.content ∧
      ctypeOf (runConstructed defaultOptions (some exScan) exReqApp) =
        some exAppRecord.type) :=
  ⟨by decide, by decide, by decide, by decide, by decide,
    c4_static_exactness defaultOptions exScan exReqApp exIndexRecord
      exAppRecord (by decide) (by decide) (by decide) (by decide) (by decide)⟩

/-- C5: when the matched record (exact hit, or the index fallback) has
isIndex = false, the injector callback is not invoked while handling the
request. -/
theorem c5_no_injection_on_static (opts : Options) (scan : List ScanEntry)
    (req : Request) (ixf : BunSpaFile)
    (hdis : opts.disabled = false)
    (hix : alistGet (buildFiles scan opts.index) ('/' :: opts.index) = some ixf)
    (hfi : ((alistGet (buildFiles scan opts.index) req.pathname).getD
      ixf).isIndex = false) :
    injCalledOf (runConstructed opts (some scan) req) = some false := by
  rw [runConstructed_serving opts scan ixf req hdis hix]
  simp [injCalledOf, serve, hfi]

/-- C5 witness: an injector is configured but the request hits the static
asset, so it does not run. -/
theorem c5_no_injection_on_static_witness :
    c1Opts.disabled = false ∧
    alistGet (buildFiles exScan c1Opts.index) ('/' :: c1Opts.index) =
      some exIndexRecord ∧
    ((alistGet (buildFiles exScan c1Opts.index) exReqApp.pathname).getD
      exIndexRecord).isIndex = false ∧
    injCalledOf (runConstructed c1Opts (some exScan) exReqApp) = some false :=
  ⟨by decide, by decide, by decide,
    c5_no_injection_on_static c1Opts exScan exReqApp exIndexRecord
      (by decide) (by decide) (by decide)⟩

/-- C7: on every response path the headers callback's mapping is merged
over the default content-type header: every header the callback's mapping
settles on is in the response with the callback's value (so its own
content type wins), and when the callback does not supply a content type
the response's content type is the matched record's detected type. -/
theorem c7_header_merge (opts : Options) (scan : List ScanEntry)
    (req : Request) (ixf : BunSpaFile)
    (hcb : CallbackOptions → List (Str × Str)) (k : Str)
    (hdis : opts.disabled = false)
    (hix : alistGet (buildFiles scan opts.index) ('/' :: opts.index) = some ixf)
    (hh : opts.headers = some hcb) :
    (∀ v, objGetLast (hcb
        { pathname := req.pathname, req := req,
          file := (alistGet (buildFiles scan opts.index) req.pathname).getD ixf })
        k = some v →
      headerOf (runConstructed opts (some scan) req) k = some v) ∧
    (objGetLast (hcb
        { pathname := req.pathname, req := req,
          file := (alistGet (buildFiles scan opts.index) req.pathname).getD ixf })
        contentTypeKey = none →
      ctypeOf (runConstructed opts (some scan) req) =
        some ((alistGet (buildFiles scan opts.index) req.pathname).getD
          ixf).type) := by
  rw [runConstructed_serving opts scan ixf req hdis hix]
  refine ⟨?_, ?_⟩
  · intro v hv
    simp only [headerOf, serve, Option.some_bind, headersOutput, hh]
    exact alistGet_objMerge_some _ _ _ _ hv
  · intro hnone
    simp only [ctypeOf, headerOf, serve, Option.some_bind, headersOutput, hh]
    rw [alistGet_objMerge_none _ _ _ hnone]
    simp [alistGet]

/-- C7 witness: a callback adding Cache-Control no-store on a static hit;
the response carries both that header and the default content type. -/
theorem c7_header_merge_witness :
    c7Opts.disabled = false ∧
    alistGet (buildFiles exScan c7Opts.index) ('/' :: c7Opts.index) =
      some exIndexRecord ∧
    c7Opts.headers =
      some (fun _ => [(("Cache-Control").toList, ("no-store").toList)]) ∧
    ((∀ v, objGetLast
        ((fun _ : CallbackOptions =>
            [(("Cache-Control").toList, ("no-store").toList)])
          { pathname := exReqApp.pathname, req := exReqApp,
            file := (alistGet (buildFiles exScan c7Opts.index)
              exReqApp.pathname).getD exIndexRecord })
        (("Cache-Control").toList) = some v →
      headerOf (runConstructed c7Opts (some exScan) exReqApp)
        (("Cache-Control").toList) = some v) ∧
     (objGetLast
        ((fun _ : CallbackOptions =>
            [(("Cache-Control").toList, ("no-store").toList)])
          { pathname := exReqApp.pathname, req := exReqApp,
            file := (alistGet (buildFiles exScan c7Opts.index)
              exReqApp.pathname).getD exIndexRecord })
        contentTypeKey = none →
      ctypeOf (runConstructed c7Opts (some exScan) exReqApp) =
        some ((alistGet (buildFiles exScan c7Opts.index)
          exReqApp.pathname).getD exIndexRecord).type)) ∧
    headerOf (runConstructed c7Opts (some exScan) exReqApp)
      (("Cache-Control").toList) = some (("no-store").toList) ∧
    ctypeOf (runConstructed c7Opts (some exScan) exReqApp) =
      some (("text/javascript").toList) :=
  ⟨by decide, by decide, rfl,
    c7_header_merge c7Opts exScan exReqApp exIndexRecord
      (fun _ => [(("Cache-Control").toList, ("no-store").toList)])
      (("Cache-Control").toList) (by decide) (by decide) rfl,
    by decide, by decide⟩

/-- C10: the injector's returned string is spliced into the index document
verbatim for every returned string, dollar replacement-pattern sequences
included, because the source supplies the replacement as a function and
not as a replacement string. -/
theorem c10_injected_verbatim (s : Str) (opts : Options)
    (scan : List ScanEntry) (req : Request) (ixf : BunSpaFile)
    (pl a b : Str)
    (hdis : opts.disabled = false)
    (hpl : opts.placeholder = .literal pl)
    (hinj : opts.indexInjector = some (fun _ => s))
    (hix : alistGet (buildFiles scan opts.index) ('/' :: opts.index) = some ixf)
    (hmiss : alistGet (buildFiles scan opts.index) req.pathname = none)
    (hcontent : ixf.content = a ++ pl ++ b)
    (hfirst : findOcc pl (a ++ pl ++ b) = some a.length) :
    bodyOf (runConstructed opts (some scan) req) = some (a ++ s ++ b) := by
  rw [runConstructed_serving opts scan ixf req hdis hix]
  have hidx : ixf.isIndex = true := index_record_isIndex scan opts.index ixf hix
  simp only [bodyOf, Option.map_some', serve, hmiss, Option.getD_none, hidx,
    hinj, decodeText, hpl, hcontent, jsReplace, injectorOutput,
    Option.isNone_some, Bool.not_true, Bool.false_or, Bool.or_false,
    Bool.false_eq_true, ite_false]
  rw [replaceFirst_split a pl b _ hfirst]

/-- C10 witness: the injected string is the replacement-pattern sequence
itself, and it appears in the body verbatim rather than expanded. -/
theorem c10_injected_verbatim_witness :
    c10Opts.disabled = false ∧
    c10Opts.placeholder = .literal (("X").toList) ∧
    c10Opts.indexInjector = some (fun _ => ("$&").toList) ∧
    alistGet (buildFiles exScan c10Opts.index) ('/' :: c10Opts.index) =
      some exIndexRecord ∧
    alistGet (buildFiles exScan c10Opts.index) exReqMiss.pathname = none ∧
    exIndexRecord.content = ("u").toList ++ ("X").toList ++ ("vXw").toList ∧
    findOcc (("X").toList)
      (("u").toList ++ ("X").toList ++ ("vXw").toList) =
        some (("u").toList).length ∧
    bodyOf (runConstructed c10Opts (some exScan) exReqMiss) =
      some (("u").toList ++ ("$&").toList ++ ("vXw").toList) :=
  ⟨by decide, by decide, rfl, by decide, by decide, by decide, by decide,
    c10_injected_verbatim (("$&").toList) c10Opts exScan exReqMiss
      exIndexRecord (("X").toList) (("u").toList) (("vXw").toList)
      (by decide) (by decide) rfl (by decide) (by decide) (by decide)
      (by decide)⟩

/-- C9: request handling never writes the file table (the table coming out
of an invocation is the table that went in), so replaying the same request
against the table left behind by the first invocation yields a
byte-identical body. -/
theorem c9_replay_identical (opts : Options) (files : FileTable)
    (ixf : BunSpaFile) (ixc : Str) (req : Request) :
    (serve opts files ixf ixc req).files = files ∧
    (serve opts (serve opts files ixf ixc req).files ixf ixc req).response.body =
      (serve opts files ixf ixc req).response.body :=
  ⟨rfl, rfl⟩

end BunSpa
